import Mathlib

/-!
Shallow embedding of the spatial-partitioned collision/subdivision cube
simulation from `src/portfolioMilestone.js` (the most advanced demo variant,
the second document in that file).  JavaScript numbers are modelled as
rationals; `Math.random()` is modelled as an explicit stream of values
consumed one at a time, so every "freshly randomized" quantity is a
definite function of the stream and of the position of its draw.
-/

namespace CubeSim

/-- Simulation constant: `const cubeSize = 0.2` in `checkCollisions`. -/
def cubeSize : ℚ := 1/5

/-- Simulation constant: `const smallScale = 0.1` in `splitCube`. -/
def smallScale : ℚ := 1/10

/-- `boundary.x` from `const boundary = { x: 1.5, y: 1.0, z: -4.0 }`. -/
def boundaryX : ℚ := 3/2

/-- `boundary.y` from the `boundary` constant. -/
def boundaryY : ℚ := 1

/-- `boundary.z` from the `boundary` constant. -/
def boundaryZ : ℚ := -4

/-- An RGBA color: the JS arrays `[r, g, b, a]` produced by
`getRandomColor` and stored in `colors[i].current` / `colors[i].target`. -/
structure Color where
  r : ℚ
  g : ℚ
  b : ℚ
  a : ℚ
  deriving DecidableEq, Repr

instance : Inhabited Color := ⟨⟨0, 0, 0, 0⟩⟩

/-- One entry of the `colors` array: `{ current, target, step }`. -/
structure ColorObj where
  current : Color
  target : Color
  step : ℚ
  deriving DecidableEq, Repr

instance : Inhabited ColorObj := ⟨⟨default, default, 0⟩⟩

/-- One entry of the `positions` array: `{ x, y, z, hasSplit }`. -/
structure Pos where
  x : ℚ
  y : ℚ
  z : ℚ
  hasSplit : Bool
  deriving DecidableEq, Repr

instance : Inhabited Pos := ⟨⟨0, 0, 0, false⟩⟩

/-- One entry of the `directions` array: `{ dx, dy, dz }`. -/
structure Dir where
  dx : ℚ
  dy : ℚ
  dz : ℚ
  deriving DecidableEq, Repr

instance : Inhabited Dir := ⟨⟨0, 0, 0⟩⟩

/-- Model of `Math.random()`: a fixed stream of values together with a
counter saying how many draws have already been consumed. -/
structure Rng where
  stream : ℕ → ℚ
  k : ℕ

/-- Draw the next value of the stream (one `Math.random()` call). -/
def Rng.next (rng : Rng) : ℚ × Rng :=
  (rng.stream rng.k, ⟨rng.stream, rng.k + 1⟩)

/-- `getRandomColor()`: three `Math.random()` draws for R, G, B, alpha
fixed at `1.0`. -/
def getRandomColor (rng : Rng) : Color × Rng :=
  let (r0, rng1) := rng.next
  let (r1, rng2) := rng1.next
  let (r2, rng3) := rng2.next
  (⟨r0, r1, r2, 1⟩, rng3)

/-- `updateColorTransition(colorObj)`: `step += 0.005`; each RGB channel is
moved towards the target by `(target - current) * 0.02` (alpha untouched);
when `step >= 1` a new random target is drawn and `step` is reset to 0. -/
def updateColorTransition (c : ColorObj) (rng : Rng) : ColorObj × Rng :=
  let step1 := c.step + 1/200
  let cur := c.current
  let tgt := c.target
  let cur1 : Color :=
    ⟨cur.r + (tgt.r - cur.r) * (1/50),
     cur.g + (tgt.g - cur.g) * (1/50),
     cur.b + (tgt.b - cur.b) * (1/50),
     cur.a⟩
  if step1 ≥ 1 then
    let (t1, rng1) := getRandomColor rng
    (⟨cur1, t1, 0⟩, rng1)
  else
    (⟨cur1, tgt, step1⟩, rng)

/-- Iterate `updateColorTransition` a number of ticks, threading the
random stream. -/
def advanceColor : ℕ → ColorObj → Rng → ColorObj × Rng
  | 0, c, rng => (c, rng)
  | n + 1, c, rng =>
      let (c1, rng1) := updateColorTransition c rng
      advanceColor n c1 rng1

/-- The whole mutable simulation state: the five index-aligned parallel
arrays (`positions`, `angles`, `speeds`, `colors`, `directions`) plus the
random stream. -/
structure SimState where
  positions : List Pos
  angles : List ℚ
  speeds : List ℚ
  colors : List ColorObj
  directions : List Dir
  rng : Rng

/-- Body of `colors.forEach` in the `colorSyncButton.onclick` handler:
each entry gets `current = [...color]` (the shared color) and a fresh
`target = getRandomColor()`; no other field is written. -/
def colorSyncLoop (color : Color) : List ColorObj → Rng → List ColorObj × Rng
  | [], rng => ([], rng)
  | c :: rest, rng =>
      let (t1, rng1) := getRandomColor rng
      let (rest1, rng2) := colorSyncLoop color rest rng1
      ({ c with current := color, target := t1 } :: rest1, rng2)

/-- The `colorSyncButton.onclick` handler (the spec's
`resetColorsToRandom()`): draw one random color, then for every entry of
`colors` overwrite `current` with a copy of that color and `target` with a
fresh independent random color. -/
def colorSync (s : SimState) : SimState :=
  let (color, rng1) := getRandomColor s.rng
  let (cs, rng2) := colorSyncLoop color s.colors rng1
  { s with colors := cs, rng := rng2 }

/-- The box proximity test of `checkCollisions`: overlap iff the centers
differ by less than `cubeSize` on every axis. -/
def collides (a b : Pos) : Prop :=
  |a.x - b.x| < cubeSize ∧ |a.y - b.y| < cubeSize ∧ |a.z - b.z| < cubeSize

instance (a b : Pos) : Decidable (collides a b) := by
  unfold collides; infer_instance

/-- One iteration of the `for (let i = 0; i < 8; i++)` loop of
`splitCube`: appends one child to each of the five parallel arrays.  Bit 0
of `i` selects the ±x offset, bit 1 the ±y offset, bit 2 the ±z offset.
The child copies the parent's rotation angle and current color, gets 1.2
times the parent's rotation speed, a fresh random target with `step = 0`,
and a fresh random velocity per axis. -/
def splitChild (index : ℕ) (s : SimState) (i : ℕ) : SimState :=
  let originalPos := s.positions.getD index default
  let xOffset : ℚ := if i &&& 1 ≠ 0 then smallScale else -smallScale
  let yOffset : ℚ := if i &&& 2 ≠ 0 then smallScale else -smallScale
  let zOffset : ℚ := if i &&& 4 ≠ 0 then smallScale else -smallScale
  let (target, rng1) := getRandomColor s.rng
  let (rdx, rng2) := rng1.next
  let (rdy, rng3) := rng2.next
  let (rdz, rng4) := rng3.next
  { s with
    positions := s.positions ++
      [⟨originalPos.x + xOffset, originalPos.y + yOffset, originalPos.z + zOffset, true⟩],
    angles := s.angles ++ [s.angles.getD index 0],
    speeds := s.speeds ++ [s.speeds.getD index 0 * (6/5)],
    colors := s.colors ++ [⟨(s.colors.getD index default).current, target, 0⟩],
    directions := s.directions ++
      [⟨(rdx - 1/2) * (1/100), (rdy - 1/2) * (1/100), (rdz - 1/2) * (1/100)⟩],
    rng := rng4 }

/-- `splitCube(index)`: run the child-creation loop for `i = 0..7`. -/
def splitCube (s : SimState) (index : ℕ) : SimState :=
  (List.range 8).foldl (splitChild index) s

/-- `directions[cubeIndex].dx *= -1; … dy *= -1; … dz *= -1` — the bounce
response of `checkCollisions` for an already-split cube. -/
def negateDirAt (s : SimState) (i : ℕ) : SimState :=
  let d := s.directions.getD i default
  { s with directions := s.directions.set i ⟨-d.dx, -d.dy, -d.dz⟩ }

/-- `cube.hasSplit = true` — performed right after `splitCube(cubeIndex)`. -/
def setHasSplitAt (s : SimState) (i : ℕ) : SimState :=
  let p := s.positions.getD i default
  { s with positions := s.positions.set i { p with hasSplit := true } }

/-- The `for (const i of candidates)` loop of `checkCollisions`: on the
first overlap of an unsplit cube, split, mark `hasSplit` and return
`true`; on an overlap of an already-split cube, negate all three velocity
components and keep scanning; with no overlap left, return `false`. -/
def collisionLoop (cubeIndex : ℕ) : SimState → List ℕ → SimState × Bool
  | s, [] => (s, false)
  | s, i :: rest =>
      let cube := s.positions.getD cubeIndex default
      let other := s.positions.getD i default
      if collides cube other then
        if cube.hasSplit = false then
          (setHasSplitAt (splitCube s cubeIndex) cubeIndex, true)
        else
          collisionLoop cubeIndex (negateDirAt s cubeIndex) rest
      else
        collisionLoop cubeIndex s rest

/-- The `SpatialGrid` configuration: `cellSize`, the per-axis cell count
`gridSize = Math.ceil(worldSize * 2 / cellSize)`, and the length
`gridSize³` of the flat cell array. -/
structure SpatialGrid where
  cellSize : ℚ
  gridSize : ℤ
  numCells : ℕ
  deriving DecidableEq, Repr

/-- The `SpatialGrid` constructor.  It performs no validation of its own;
`new Array(len)` throws a `RangeError` (modelled as `none`) when the
computed length is not a finite non-negative integer below 2³²: with
`cellSize = 0` the quotient is `±Infinity`/`NaN` and `Math.ceil`
propagates it, and a negative `gridSize` makes `gridSize³` negative. -/
def SpatialGrid.construct (worldSize cellSize : ℚ) : Option SpatialGrid :=
  if cellSize = 0 then none
  else
    let gridSize : ℤ := ⌈worldSize * 2 / cellSize⌉
    let len : ℤ := gridSize * gridSize * gridSize
    if len < 0 ∨ (4294967295 : ℤ) < len then none
    else some ⟨cellSize, gridSize, len.toNat⟩

/-- The grid instance of the program:
`new SpatialGrid(Math.max(boundary.x, boundary.y, Math.abs(boundary.z)), 0.5)`,
i.e. `worldSize = 4`, `cellSize = 0.5`, so `gridSize = 16` and 4096 cells. -/
def spatialGrid : SpatialGrid := ⟨1/2, 16, 4096⟩

/-- `getGridIndex(x, y, z)`: per-axis cell coordinates via
`Math.floor((coord + offset) / cellSize)` flattened as
`gridX + gridY * gridSize + gridZ * gridSize²`. -/
def SpatialGrid.getGridIndex (grid : SpatialGrid) (x y z : ℚ) : ℤ :=
  let gridX := ⌊(x + boundaryX) / grid.cellSize⌋
  let gridY := ⌊(y + boundaryY) / grid.cellSize⌋
  let gridZ := ⌊(z + |boundaryZ|) / grid.cellSize⌋
  gridX + gridY * grid.gridSize + gridZ * grid.gridSize * grid.gridSize

/-- One step of `updateGrid`'s `positions.forEach`: push entity index `i`
into cell `gi` when `0 <= gi < grid.length`, otherwise silently omit it.
The flat cell array is represented by its lookup map from flat index to
cell contents (in insertion order). -/
def gridInsert (numCells : ℕ) (cells : ℤ → List ℕ) (gi : ℤ) (i : ℕ) : ℤ → List ℕ :=
  if 0 ≤ gi ∧ gi < (numCells : ℤ) then
    fun c => if c = gi then cells gi ++ [i] else cells c
  else cells

/-- `updateGrid()`: clear every cell, then insert each entity index in
order at its computed flat cell index. -/
def SpatialGrid.updateGrid (grid : SpatialGrid) (ps : List Pos) : ℤ → List ℕ :=
  (List.range ps.length).foldl
    (fun cells i =>
      let p := ps.getD i default
      gridInsert grid.numCells cells (grid.getGridIndex p.x p.y p.z) i)
    (fun _ => [])

/-- The three per-axis offsets `-1..1` of the neighbor scan. -/
def offsetRange : List ℤ := [-1, 0, 1]

/-- The 27 `(dx, dy, dz)` offsets scanned by `getPotentialCollisions`, in
loop order (`dx` outermost, `dz` innermost). -/
def neighborOffsets : List (ℤ × ℤ × ℤ) :=
  offsetRange.flatMap fun dx => offsetRange.flatMap fun dy => offsetRange.map fun dz => (dx, dy, dz)

/-- `candidates.add(idx)` guarded by `idx !== cubeIndex`: the JS `Set`
keeps first-insertion order and ignores duplicates. -/
def addCandidate (cubeIndex : ℕ) (cands : List ℕ) (idx : ℕ) : List ℕ :=
  if idx ≠ cubeIndex ∧ idx ∉ cands then cands ++ [idx] else cands

/-- `getPotentialCollisions(cubeIndex)`: scan the 27 flat indices
`gridIndex + dx + dy * gridSize + dz * gridSize²`, skip out-of-range ones,
and union the members of the rest (minus the entity itself). -/
def SpatialGrid.getPotentialCollisions (grid : SpatialGrid) (cells : ℤ → List ℕ)
    (ps : List Pos) (cubeIndex : ℕ) : List ℕ :=
  let p := ps.getD cubeIndex default
  let gi := grid.getGridIndex p.x p.y p.z
  neighborOffsets.foldl
    (fun cands d =>
      let ni := gi + d.1 + d.2.1 * grid.gridSize + d.2.2 * grid.gridSize * grid.gridSize
      if 0 ≤ ni ∧ ni < (grid.numCells : ℤ) then
        (cells ni).foldl (addCandidate cubeIndex) cands
      else cands)
    []

/-- The flat cell index of entity `i`, as computed by both `updateGrid`
and `getPotentialCollisions` from the entity's current position. -/
def cellIndexOf (grid : SpatialGrid) (ps : List Pos) (i : ℕ) : ℤ :=
  grid.getGridIndex (ps.getD i default).x (ps.getD i default).y (ps.getD i default).z

/-- `checkCollisions(cubeIndex)`: pull the broad-phase candidates and run
the narrow-phase loop.  For an out-of-range index the JS code reads
`undefined` fields, every `NaN` comparison is false and no candidate cell
is in range, so the call leaves the state unchanged and returns `false`;
that net effect is modelled by the guard. -/
def checkCollisions (grid : SpatialGrid) (cells : ℤ → List ℕ) (s : SimState)
    (cubeIndex : ℕ) : SimState × Bool :=
  if cubeIndex < s.positions.length then
    collisionLoop cubeIndex s (grid.getPotentialCollisions cells s.positions cubeIndex)
  else (s, false)

/-- `updateColorTransition(colors[i])` inside the render loop, acting on
entry `i` of the `colors` array and the random stream. -/
def colorStepAt (s : SimState) (i : ℕ) : SimState :=
  let (c1, rng1) := updateColorTransition (s.colors.getD i default) s.rng
  { s with colors := s.colors.set i c1, rng := rng1 }

/-- Position integration plus the three independent boundary checks of the
render loop: `positions[i] += directions[i]` per axis, then each axis's
velocity component is negated exactly when the new position lies beyond
that axis's bound (x: `±boundary.x`, y: `±boundary.y`, z: above `-0.5` or
below `boundary.z`).  The position is never clamped. -/
def integrateAndBounce (p : Pos) (d : Dir) : Pos × Dir :=
  let p1 : Pos := { p with x := p.x + d.dx, y := p.y + d.dy, z := p.z + d.dz }
  let d1 := if p1.x > boundaryX ∨ p1.x < -boundaryX then { d with dx := -d.dx } else d
  let d2 := if p1.y > boundaryY ∨ p1.y < -boundaryY then { d1 with dy := -d1.dy } else d1
  let d3 := if p1.z > -(1/2) ∨ p1.z < boundaryZ then { d2 with dz := -d2.dz } else d2
  (p1, d3)

/-- The simulation part of one iteration of the render loop at index `i`:
advance the color transition, run `checkCollisions(i)`, integrate
`angles[i] += speeds[i]` and the position, and apply the boundary
bounce. -/
def processEntity (grid : SpatialGrid) (cells : ℤ → List ℕ) (s : SimState) (i : ℕ) :
    SimState :=
  let s1 := colorStepAt s i
  let s2 := (checkCollisions grid cells s1 i).1
  let s3 := { s2 with angles := s2.angles.set i (s2.angles.getD i 0 + s2.speeds.getD i 0) }
  let (p1, d1) := integrateAndBounce (s3.positions.getD i default) (s3.directions.getD i default)
  { s3 with positions := s3.positions.set i p1, directions := s3.directions.set i d1 }

/-- Number of entities that have not split yet.  Each loop iteration
either keeps the population or converts one unsplit entity into a split
one while appending 8 split children, so `9 * unsplitCount + length`
bounds the remaining work of the render loop. -/
def unsplitCount (s : SimState) : ℕ := s.positions.countP fun p => !p.hasSplit

/-- Fuel bound for the render loop starting at index `i`. -/
def tickMeasure (s : SimState) (i : ℕ) : ℕ :=
  9 * unsplitCount s + s.positions.length - i

/-- The `for (let i = 0; i < positions.length; i++)` render loop: the
bound `positions.length` is re-read from the current state on every
iteration.  The loop is driven by a fuel argument, shown sufficient (so
the `0` cutoff is never reached) by the lemmas below; it also records the
list of visited indices. -/
def tickLoopF (grid : SpatialGrid) (cells : ℤ → List ℕ) :
    ℕ → SimState → ℕ → SimState × List ℕ
  | 0, s, _ => (s, [])
  | fuel + 1, s, i =>
      if i < s.positions.length then
        let out := tickLoopF grid cells fuel (processEntity grid cells s i) (i + 1)
        (out.1, i :: out.2)
      else (s, [])

/-- One full simulation tick of `render()`: rebuild the spatial grid from
the current positions, then run the per-entity loop from index 0. -/
def tick (s : SimState) : SimState × List ℕ :=
  let cells := spatialGrid.updateGrid s.positions
  tickLoopF spatialGrid cells (tickMeasure s 0) s 0

/-- Statement vocabulary: the three RGB channels of a color lie in `[0,1]`. -/
def inUnitRGB (c : Color) : Prop :=
  0 ≤ c.r ∧ c.r ≤ 1 ∧ 0 ≤ c.g ∧ c.g ≤ 1 ∧ 0 ≤ c.b ∧ c.b ≤ 1

instance (c : Color) : Decidable (inUnitRGB c) := by
  unfold inUnitRGB; infer_instance

/-- Statement vocabulary: the random stream only produces values in `[0,1]`,
as `Math.random()` does. -/
def streamInUnit (rng : Rng) : Prop :=
  ∀ m, 0 ≤ rng.stream m ∧ rng.stream m ≤ 1

/-- Statement vocabulary: the five parallel per-entity arrays have equal
lengths. -/
def aligned (s : SimState) : Prop :=
  s.angles.length = s.positions.length ∧
  s.speeds.length = s.positions.length ∧
  s.colors.length = s.positions.length ∧
  s.directions.length = s.positions.length

instance (s : SimState) : Decidable (aligned s) := by
  unfold aligned; infer_instance

/-- The position record pushed for child `i` of a parent at `p` in
`splitCube`: bit 0/1/2 of `i` select the sign of the x/y/z offset, and the
child is created with `hasSplit: true`. -/
def childPos (p : Pos) (i : ℕ) : Pos :=
  ⟨p.x + (if i &&& 1 ≠ 0 then smallScale else -smallScale),
   p.y + (if i &&& 2 ≠ 0 then smallScale else -smallScale),
   p.z + (if i &&& 4 ≠ 0 then smallScale else -smallScale),
   true⟩

/-- Concrete one-entity state used to instantiate the subdivision
theorems. -/
def splitExample : SimState where
  positions := [⟨0, 0, -2, false⟩]
  angles := [1/10]
  speeds := [1/100]
  colors := [⟨⟨1/4, 1/2, 3/4, 1⟩, ⟨0, 0, 0, 1⟩, 1/5⟩]
  directions := [⟨1/200, 1/250, 1/500⟩]
  rng := ⟨fun m => (m : ℚ) / 100, 0⟩

/-- Concrete two-entity state whose entities have both already split and
overlap each other, used to instantiate the bounce-parity theorems. -/
def bounceExample : SimState where
  positions := [⟨0, 0, -2, true⟩, ⟨1/10, 0, -2, true⟩]
  angles := [0, 0]
  speeds := [1/100, 1/100]
  colors := [⟨⟨0, 0, 0, 1⟩, ⟨1, 1, 1, 1⟩, 0⟩, ⟨⟨0, 0, 0, 1⟩, ⟨1, 1, 1, 1⟩, 0⟩]
  directions := [⟨1/100, -1/100, 1/200⟩, ⟨0, 0, 0⟩]
  rng := ⟨fun _ => 1/2, 0⟩

/-- Concrete state used to exhibit the behavior of `colorSync` on an entity
whose transition is half way through (`step = 1/2`). -/
def colorSyncExample : SimState where
  positions := [⟨0, 0, -2, false⟩]
  angles := [0]
  speeds := [1/100]
  colors := [⟨⟨0, 0, 0, 1⟩, ⟨1, 1, 1, 1⟩, 1/2⟩]
  directions := [⟨0, 0, 0⟩]
  rng := ⟨fun _ => 1/2, 0⟩

theorem getRandomColor_eq (rng : Rng) :
    getRandomColor rng =
      (⟨rng.stream rng.k, rng.stream (rng.k + 1), rng.stream (rng.k + 2), 1⟩,
       ⟨rng.stream, rng.k + 3⟩) := rfl

theorem colorSyncLoop_spec (color : Color) (l : List ColorObj) (rng : Rng) :
    (colorSyncLoop color l rng).1.length = l.length ∧
    (colorSyncLoop color l rng).2 = ⟨rng.stream, rng.k + 3 * l.length⟩ ∧
    ∀ i, i < l.length →
      (colorSyncLoop color l rng).1.getD i default =
        { l.getD i default with
          current := color,
          target := ⟨rng.stream (rng.k + 3 * i), rng.stream (rng.k + 3 * i + 1),
                     rng.stream (rng.k + 3 * i + 2), 1⟩ } := by
  induction l generalizing rng with
  | nil => simp [colorSyncLoop]
  | cons c rest ih =>
      obtain ⟨ihlen, ihrng, ihget⟩ := ih ⟨rng.stream, rng.k + 3⟩
      refine ⟨?_, ?_, ?_⟩
      · simp [colorSyncLoop, getRandomColor_eq, ihlen]
      · simp only [colorSyncLoop, getRandomColor_eq, ihrng]
        congr 1
        simp [Nat.mul_succ]
        ring
      · intro i hi
        match i with
        | 0 => simp [colorSyncLoop, getRandomColor_eq]
        | i + 1 =>
            have hi' : i < rest.length := by simpa using hi
            have := ihget i hi'
            simp only [colorSyncLoop, getRandomColor_eq, List.getD_cons_succ, this]
            congr 2 <;> · congr 1; ring

/-- C1 (counterexample): `colorSync` does not reset the color transition
step.  On a state whose single entity has `step = 1/2`, the step is still
`1/2` (hence not `0`) after the control call. -/
theorem colorSync_step_not_reset :
    ((colorSync colorSyncExample).colors.getD 0 default).step ≠ 0 := by
  norm_num [colorSync, colorSyncExample, colorSyncLoop, getRandomColor, Rng.next]

/-- C1 (amended): `colorSync` sets every entity's `current` to one and the
same freshly drawn random color (stream positions `k`, `k+1`, `k+2`),
gives entity `i` the independent fresh `target` drawn at stream positions
`k+3+3i`, `k+4+3i`, `k+5+3i`, and leaves the `step` field unchanged. -/
theorem colorSync_spec (s : SimState) (i : ℕ) (h : i < s.colors.length) :
    (colorSync s).colors.getD i default =
      { s.colors.getD i default with
        current := ⟨s.rng.stream s.rng.k, s.rng.stream (s.rng.k + 1),
                    s.rng.stream (s.rng.k + 2), 1⟩,
        target := ⟨s.rng.stream (s.rng.k + 3 + 3 * i), s.rng.stream (s.rng.k + 3 + 3 * i + 1),
                   s.rng.stream (s.rng.k + 3 + 3 * i + 2), 1⟩ } ∧
    ((colorSync s).colors.getD i default).step = (s.colors.getD i default).step := by
  obtain ⟨hlen, hrng, hget⟩ :=
    colorSyncLoop_spec ⟨s.rng.stream s.rng.k, s.rng.stream (s.rng.k + 1),
      s.rng.stream (s.rng.k + 2), 1⟩ s.colors ⟨s.rng.stream, s.rng.k + 3⟩
  have := hget i h
  constructor
  · simp only [colorSync, getRandomColor_eq]
    rw [this]
  · simp only [colorSync, getRandomColor_eq]
    rw [this]

/-- C1 (witness for the amended theorem): instantiation at the concrete
example state and entity 0. -/
theorem colorSync_spec_witness :
    0 < colorSyncExample.colors.length ∧
    ((colorSync colorSyncExample).colors.getD 0 default).step =
      (colorSyncExample.colors.getD 0 default).step :=
  ⟨by simp [colorSyncExample],
   (colorSync_spec colorSyncExample 0 (by simp [colorSyncExample])).2⟩

/-- C2 (counterexample): a non-positive world extent is not rejected at
initialization: `new SpatialGrid(0, 0.5)` succeeds and silently yields a
degenerate grid with `gridSize = 0` and zero cells. -/
theorem construct_zero_world_not_rejected :
    SpatialGrid.construct 0 (1/2) = some ⟨1/2, 0, 0⟩ := by
  norm_num [SpatialGrid.construct]

/-- C2 (amended): the constructor performs no explicit validation.  A zero
`cellSize` does abort construction (the array length is `NaN`/`Infinity`
and `new Array` throws a `RangeError`), but a zero world extent with a
positive `cellSize` is accepted and constructs a degenerate zero-cell
grid instead of failing fast. -/
theorem construct_no_validation :
    (∀ worldSize : ℚ, SpatialGrid.construct worldSize 0 = none) ∧
    SpatialGrid.construct 0 (1/2) = some ⟨1/2, 0, 0⟩ := by
  constructor
  · intro worldSize
    simp [SpatialGrid.construct]
  · norm_num [SpatialGrid.construct]

/-- C6: in the boundary-bounce step, each axis is handled independently:
the new position is exactly the integrated one (never clamped), and each
velocity component is negated precisely when the integrated position
exceeds that axis's bound, the other components being computed without
reference to it. -/
theorem integrateAndBounce_spec (p : Pos) (d : Dir) :
    integrateAndBounce p d =
      (⟨p.x + d.dx, p.y + d.dy, p.z + d.dz, p.hasSplit⟩,
       ⟨if p.x + d.dx > boundaryX ∨ p.x + d.dx < -boundaryX then -d.dx else d.dx,
        if p.y + d.dy > boundaryY ∨ p.y + d.dy < -boundaryY then -d.dy else d.dy,
        if p.z + d.dz > -(1/2) ∨ p.z + d.dz < boundaryZ then -d.dz else d.dz⟩) := by
  simp only [integrateAndBounce]
  split_ifs <;> rfl

theorem updateColorTransition_inUnit (c : ColorObj) (rng : Rng)
    (hstream : streamInUnit rng) (hc : inUnitRGB c.current) (ht : inUnitRGB c.target) :
    inUnitRGB (updateColorTransition c rng).1.current ∧
    inUnitRGB (updateColorTransition c rng).1.target ∧
    (updateColorTransition c rng).2.stream = rng.stream := by
  obtain ⟨hc0, hc1, hc2, hc3, hc4, hc5⟩ := hc
  obtain ⟨ht0, ht1, ht2, ht3, ht4, ht5⟩ := ht
  have hblend : ∀ x t : ℚ, 0 ≤ x → x ≤ 1 → 0 ≤ t → t ≤ 1 →
      0 ≤ x + (t - x) * (1/50) ∧ x + (t - x) * (1/50) ≤ 1 := by
    intro x t hx0 hx1 ht0 ht1
    constructor <;> nlinarith
  simp only [updateColorTransition]
  split_ifs
  · refine ⟨?_, ?_, rfl⟩
    · exact ⟨(hblend _ _ hc0 hc1 ht0 ht1).1, (hblend _ _ hc0 hc1 ht0 ht1).2,
        (hblend _ _ hc2 hc3 ht2 ht3).1, (hblend _ _ hc2 hc3 ht2 ht3).2,
        (hblend _ _ hc4 hc5 ht4 ht5).1, (hblend _ _ hc4 hc5 ht4 ht5).2⟩
    · exact ⟨(hstream _).1, (hstream _).2, (hstream _).1, (hstream _).2,
        (hstream _).1, (hstream _).2⟩
  · refine ⟨?_, ⟨ht0, ht1, ht2, ht3, ht4, ht5⟩, rfl⟩
    exact ⟨(hblend _ _ hc0 hc1 ht0 ht1).1, (hblend _ _ hc0 hc1 ht0 ht1).2,
      (hblend _ _ hc2 hc3 ht2 ht3).1, (hblend _ _ hc2 hc3 ht2 ht3).2,
      (hblend _ _ hc4 hc5 ht4 ht5).1, (hblend _ _ hc4 hc5 ht4 ht5).2⟩

/-- C5: starting from current and target colors with all channels in
`[0,1]` and a random stream producing values in `[0,1]`, the current color
channels stay in `[0,1]` after any number of color-advance calls,
including across the retargetings performed when `step` reaches 1. -/
theorem advanceColor_inUnit (n : ℕ) (c : ColorObj) (rng : Rng)
    (hstream : streamInUnit rng) (hc : inUnitRGB c.current) (ht : inUnitRGB c.target) :
    inUnitRGB (advanceColor n c rng).1.current := by
  induction n generalizing c rng with
  | zero => exact hc
  | succ n ih =>
      obtain ⟨h1, h2, h3⟩ := updateColorTransition_inUnit c rng hstream hc ht
      have hstream1 : streamInUnit (updateColorTransition c rng).2 := by
        intro m
        rw [h3]
        exact hstream m
      simp only [advanceColor]
      exact ih _ _ hstream1 h1 h2

/-- C5 (witness): three advance calls on a concrete color under the
constant stream `1/2`. -/
theorem advanceColor_inUnit_witness :
    streamInUnit ⟨fun _ => 1/2, 0⟩ ∧
    inUnitRGB (⟨⟨1/2, 0, 1, 1⟩, ⟨1, 1/4, 0, 1⟩, (199:ℚ)/200⟩ : ColorObj).current ∧
    inUnitRGB (⟨⟨1/2, 0, 1, 1⟩, ⟨1, 1/4, 0, 1⟩, (199:ℚ)/200⟩ : ColorObj).target ∧
    inUnitRGB (advanceColor 3 ⟨⟨1/2, 0, 1, 1⟩, ⟨1, 1/4, 0, 1⟩, (199:ℚ)/200⟩
      ⟨fun _ => 1/2, 0⟩).1.current :=
  ⟨by intro m; norm_num, by norm_num [inUnitRGB], by norm_num [inUnitRGB],
   advanceColor_inUnit 3 _ _ (by intro m; norm_num) (by norm_num [inUnitRGB])
     (by norm_num [inUnitRGB])⟩

theorem splitChild_eq (index : ℕ) (s : SimState) (i : ℕ) :
    splitChild index s i =
      { s with
        positions := s.positions ++ [childPos (s.positions.getD index default) i],
        angles := s.angles ++ [s.angles.getD index 0],
        speeds := s.speeds ++ [s.speeds.getD index 0 * (6/5)],
        colors := s.colors ++ [⟨(s.colors.getD index default).current,
          ⟨s.rng.stream s.rng.k, s.rng.stream (s.rng.k + 1), s.rng.stream (s.rng.k + 2), 1⟩, 0⟩],
        directions := s.directions ++ [⟨(s.rng.stream (s.rng.k + 3) - 1/2) * (1/100),
          (s.rng.stream (s.rng.k + 4) - 1/2) * (1/100),
          (s.rng.stream (s.rng.k + 5) - 1/2) * (1/100)⟩],
        rng := ⟨s.rng.stream, s.rng.k + 6⟩ } := rfl

theorem splitFold_shape (index : ℕ) (L : List ℕ) (s : SimState) :
    ∃ l : List Pos,
      (L.foldl (splitChild index) s).positions = s.positions ++ l ∧
      l.length = L.length ∧ (∀ p ∈ l, p.hasSplit = true) ∧
      (L.foldl (splitChild index) s).angles.length = s.angles.length + L.length ∧
      (L.foldl (splitChild index) s).speeds.length = s.speeds.length + L.length ∧
      (L.foldl (splitChild index) s).colors.length = s.colors.length + L.length ∧
      (L.foldl (splitChild index) s).directions.length = s.directions.length + L.length := by
  induction L generalizing s with
  | nil => exact ⟨[], by simp⟩
  | cons a L ih =>
      obtain ⟨l, h1, h2, h3, h4, h5, h6, h7⟩ := ih (splitChild index s a)
      refine ⟨childPos (s.positions.getD index default) a :: l, ?_, ?_, ?_, ?_, ?_, ?_, ?_⟩
      · simpa [splitChild_eq] using h1
      · simp [h2]
      · intro p hp
        rcases List.mem_cons.mp hp with h | h
        · rw [h]; rfl
        · exact h3 p h
      · rw [List.foldl_cons, h4]
        simp [splitChild_eq]
        omega
      · rw [List.foldl_cons, h5]
        simp [splitChild_eq]
        omega
      · rw [List.foldl_cons, h6]
        simp [splitChild_eq]
        omega
      · rw [List.foldl_cons, h7]
        simp [splitChild_eq]
        omega

theorem splitFold_values (index : ℕ) (n : ℕ) (s : SimState)
    (hpos : index < s.positions.length) (hang : index < s.angles.length)
    (hspd : index < s.speeds.length) (hcol : index < s.colors.length) :
    ((List.range n).foldl (splitChild index) s).positions =
        s.positions ++ (List.range n).map (childPos (s.positions.getD index default)) ∧
    ((List.range n).foldl (splitChild index) s).angles =
        s.angles ++ List.replicate n (s.angles.getD index 0) ∧
    ((List.range n).foldl (splitChild index) s).speeds =
        s.speeds ++ List.replicate n (s.speeds.getD index 0 * (6/5)) ∧
    ((List.range n).foldl (splitChild index) s).colors =
        s.colors ++ (List.range n).map (fun i =>
          (⟨(s.colors.getD index default).current,
            ⟨s.rng.stream (s.rng.k + 6*i), s.rng.stream (s.rng.k + 6*i + 1),
             s.rng.stream (s.rng.k + 6*i + 2), 1⟩, 0⟩ : ColorObj)) ∧
    ((List.range n).foldl (splitChild index) s).directions =
        s.directions ++ (List.range n).map (fun i =>
          (⟨(s.rng.stream (s.rng.k + 6*i + 3) - 1/2) * (1/100),
            (s.rng.stream (s.rng.k + 6*i + 4) - 1/2) * (1/100),
            (s.rng.stream (s.rng.k + 6*i + 5) - 1/2) * (1/100)⟩ : Dir)) ∧
    ((List.range n).foldl (splitChild index) s).rng = ⟨s.rng.stream, s.rng.k + 6*n⟩ := by
  induction n with
  | zero => simp
  | succ n ih =>
      obtain ⟨ih1, ih2, ih3, ih4, ih5, ih6⟩ := ih
      simp only [List.range_succ, List.foldl_append, List.foldl_cons, List.foldl_nil]
      rw [splitChild_eq, ih1, ih2, ih3, ih4, ih5, ih6]
      dsimp only
      rw [List.getD_append _ _ _ _ hpos, List.getD_append _ _ _ _ hang,
          List.getD_append _ _ _ _ hspd, List.getD_append _ _ _ _ hcol]
      refine ⟨?_, ?_, ?_, ?_, ?_, ?_⟩
      · simp [List.append_assoc]
      · simp [List.replicate_add, List.append_assoc]
      · simp [List.replicate_add, List.append_assoc]
      · simp [List.append_assoc]
      · simp [List.append_assoc]
      · simp only [Rng.mk.injEq, true_and]
        ring

theorem getD_append_offset {α : Type} (l l' : List α) (d : α) (i : ℕ) :
    (l ++ l').getD (l.length + i) d = l'.getD i d := by
  rw [List.getD_append_right _ _ _ _ (Nat.le_add_right _ _), Nat.add_sub_cancel_left]

theorem getD_map_range {α : Type} (f : ℕ → α) (d : α) (n i : ℕ) (h : i < n) :
    ((List.range n).map f).getD i d = f i := by
  rw [List.getD_eq_getElem _ _ (by simpa using h)]
  simp

theorem map_childPos_range_eight (p : Pos) :
    (List.range 8).map (childPos p) =
      [⟨p.x - smallScale, p.y - smallScale, p.z - smallScale, true⟩,
       ⟨p.x + smallScale, p.y - smallScale, p.z - smallScale, true⟩,
       ⟨p.x - smallScale, p.y + smallScale, p.z - smallScale, true⟩,
       ⟨p.x + smallScale, p.y + smallScale, p.z - smallScale, true⟩,
       ⟨p.x - smallScale, p.y - smallScale, p.z + smallScale, true⟩,
       ⟨p.x + smallScale, p.y - smallScale, p.z + smallScale, true⟩,
       ⟨p.x - smallScale, p.y + smallScale, p.z + smallScale, true⟩,
       ⟨p.x + smallScale, p.y + smallScale, p.z + smallScale, true⟩] := by
  have h : (List.range 8).map (childPos p) =
      [⟨p.x + -smallScale, p.y + -smallScale, p.z + -smallScale, true⟩,
       ⟨p.x + smallScale, p.y + -smallScale, p.z + -smallScale, true⟩,
       ⟨p.x + -smallScale, p.y + smallScale, p.z + -smallScale, true⟩,
       ⟨p.x + smallScale, p.y + smallScale, p.z + -smallScale, true⟩,
       ⟨p.x + -smallScale, p.y + -smallScale, p.z + smallScale, true⟩,
       ⟨p.x + smallScale, p.y + -smallScale, p.z + smallScale, true⟩,
       ⟨p.x + -smallScale, p.y + smallScale, p.z + smallScale, true⟩,
       ⟨p.x + smallScale, p.y + smallScale, p.z + smallScale, true⟩] := rfl
  rw [h]
  simp [sub_eq_add_neg]

/-- C3: one `splitCube` call on a parent entity appends exactly 8 new
entities; listed in creation order their positions are the parent position
offset by `±smallScale` on each axis, covering every one of the 8 sign
combinations exactly once (the listed 8 positions are pairwise distinct),
and every child is created with `hasSplit = true`.  Child `i` moreover
copies the parent's rotation angle and current color, has 1.2 times the
parent's rotation speed, a fresh random target (stream draws `6i`..`6i+2`
past the current counter) with `step = 0`, and an independently drawn
random velocity per axis (stream draws `6i+3`..`6i+5`). -/
theorem splitCube_octants (s : SimState) (index : ℕ)
    (hpos : index < s.positions.length) (hang : index < s.angles.length)
    (hspd : index < s.speeds.length) (hcol : index < s.colors.length) :
    (splitCube s index).positions.length = s.positions.length + 8 ∧
    ((List.range 8).map fun i =>
        (splitCube s index).positions.getD (s.positions.length + i) default) =
      [⟨(s.positions.getD index default).x - smallScale,
        (s.positions.getD index default).y - smallScale,
        (s.positions.getD index default).z - smallScale, true⟩,
       ⟨(s.positions.getD index default).x + smallScale,
        (s.positions.getD index default).y - smallScale,
        (s.positions.getD index default).z - smallScale, true⟩,
       ⟨(s.positions.getD index default).x - smallScale,
        (s.positions.getD index default).y + smallScale,
        (s.positions.getD index default).z - smallScale, true⟩,
       ⟨(s.positions.getD index default).x + smallScale,
        (s.positions.getD index default).y + smallScale,
        (s.positions.getD index default).z - smallScale, true⟩,
       ⟨(s.positions.getD index default).x - smallScale,
        (s.positions.getD index default).y - smallScale,
        (s.positions.getD index default).z + smallScale, true⟩,
       ⟨(s.positions.getD index default).x + smallScale,
        (s.positions.getD index default).y - smallScale,
        (s.positions.getD index default).z + smallScale, true⟩,
       ⟨(s.positions.getD index default).x - smallScale,
        (s.positions.getD index default).y + smallScale,
        (s.positions.getD index default).z + smallScale, true⟩,
       ⟨(s.positions.getD index default).x + smallScale,
        (s.positions.getD index default).y + smallScale,
        (s.positions.getD index default).z + smallScale, true⟩] ∧
    ((List.range 8).map fun i =>
        (splitCube s index).positions.getD (s.positions.length + i) default).Nodup ∧
    ∀ i, i < 8 →
      (splitCube s index).angles.getD (s.angles.length + i) 0 = s.angles.getD index 0 ∧
      (splitCube s index).speeds.getD (s.speeds.length + i) 0 =
        s.speeds.getD index 0 * (6/5) ∧
      (splitCube s index).colors.getD (s.colors.length + i) default =
        ⟨(s.colors.getD index default).current,
         ⟨s.rng.stream (s.rng.k + 6*i), s.rng.stream (s.rng.k + 6*i + 1),
          s.rng.stream (s.rng.k + 6*i + 2), 1⟩, 0⟩ ∧
      (splitCube s index).directions.getD (s.directions.length + i) default =
        ⟨(s.rng.stream (s.rng.k + 6*i + 3) - 1/2) * (1/100),
         (s.rng.stream (s.rng.k + 6*i + 4) - 1/2) * (1/100),
         (s.rng.stream (s.rng.k + 6*i + 5) - 1/2) * (1/100)⟩ := by
  obtain ⟨V1, V2, V3, V4, V5, V6⟩ := splitFold_values index 8 s hpos hang hspd hcol
  have hsplit : splitCube s index = (List.range 8).foldl (splitChild index) s := rfl
  have hmap : ((List.range 8).map fun i =>
      (splitCube s index).positions.getD (s.positions.length + i) default) =
      (List.range 8).map (childPos (s.positions.getD index default)) := by
    refine List.map_congr_left ?_
    intro i hi
    rw [hsplit, V1, getD_append_offset, getD_map_range _ _ _ _ (List.mem_range.mp hi)]
  refine ⟨?_, ?_, ?_, ?_⟩
  · rw [hsplit, V1]
    simp
  · rw [hmap]
    exact map_childPos_range_eight _
  · rw [hmap, map_childPos_range_eight]
    norm_num [List.nodup_cons, Pos.mk.injEq, smallScale, sub_eq_add_neg]
  · intro i hi
    refine ⟨?_, ?_, ?_, ?_⟩
    · rw [hsplit, V2, getD_append_offset,
        List.getD_eq_getElem _ _ (by simpa using hi), List.getElem_replicate]
    · rw [hsplit, V3, getD_append_offset,
        List.getD_eq_getElem _ _ (by simpa using hi), List.getElem_replicate]
    · rw [hsplit, V4, getD_append_offset, getD_map_range _ _ _ _ hi]
    · rw [hsplit, V5, getD_append_offset, getD_map_range _ _ _ _ hi]

/-- C3 (witness): instantiation at the concrete one-entity state. -/
theorem splitCube_octants_witness :
    0 < splitExample.positions.length ∧ 0 < splitExample.angles.length ∧
    0 < splitExample.speeds.length ∧ 0 < splitExample.colors.length ∧
    (splitCube splitExample 0).positions.length = splitExample.positions.length + 8 :=
  ⟨by simp [splitExample], by simp [splitExample], by simp [splitExample],
   by simp [splitExample],
   (splitCube_octants splitExample 0 (by simp [splitExample]) (by simp [splitExample])
     (by simp [splitExample]) (by simp [splitExample])).1⟩

theorem getD_set_ne {α : Type} (l : List α) (i j : ℕ) (a d : α) (h : i ≠ j) :
    (l.set i a).getD j d = l.getD j d := by
  by_cases hj : j < l.length
  · rw [List.getD_eq_getElem _ _ (by simpa using hj),
      List.getD_eq_getElem _ _ hj]
    exact List.getElem_set_ne h _
  · rw [List.getD_eq_default _ _ (by simp; omega),
      List.getD_eq_default _ _ (by omega)]

theorem getD_set_self {α : Type} (l : List α) (i : ℕ) (a d : α) (h : i < l.length) :
    (l.set i a).getD i d = a := by
  rw [List.getD_eq_getElem _ _ (by simpa using h)]
  exact List.getElem_set_self _

theorem negateDirAt_getD (s : SimState) (i : ℕ) :
    (negateDirAt s i).directions.getD i default =
      ⟨-(s.directions.getD i default).dx, -(s.directions.getD i default).dy,
       -(s.directions.getD i default).dz⟩ := by
  by_cases h : i < s.directions.length
  · exact getD_set_self _ _ _ _ h
  · simp only [negateDirAt]
    rw [List.set_eq_of_length_le (by omega)]
    rw [List.getD_eq_default _ _ (by omega)]
    have hd : (default : Dir) = ⟨0, 0, 0⟩ := rfl
    rw [hd]
    norm_num

theorem collisionLoop_hasSplit (cubeIndex : ℕ) (cands : List ℕ) (s : SimState)
    (h : (s.positions.getD cubeIndex default).hasSplit = true) :
    (collisionLoop cubeIndex s cands).2 = false ∧
    (collisionLoop cubeIndex s cands).1.positions = s.positions ∧
    (collisionLoop cubeIndex s cands).1.angles = s.angles ∧
    (collisionLoop cubeIndex s cands).1.speeds = s.speeds ∧
    (collisionLoop cubeIndex s cands).1.colors = s.colors ∧
    (collisionLoop cubeIndex s cands).1.rng = s.rng ∧
    (collisionLoop cubeIndex s cands).1.directions.length = s.directions.length ∧
    (∀ j, j ≠ cubeIndex →
      (collisionLoop cubeIndex s cands).1.directions.getD j default =
        s.directions.getD j default) ∧
    (collisionLoop cubeIndex s cands).1.directions.getD cubeIndex default =
      ⟨(-1) ^ (cands.countP fun i => decide (collides (s.positions.getD cubeIndex default)
          (s.positions.getD i default))) * (s.directions.getD cubeIndex default).dx,
       (-1) ^ (cands.countP fun i => decide (collides (s.positions.getD cubeIndex default)
          (s.positions.getD i default))) * (s.directions.getD cubeIndex default).dy,
       (-1) ^ (cands.countP fun i => decide (collides (s.positions.getD cubeIndex default)
          (s.positions.getD i default))) * (s.directions.getD cubeIndex default).dz⟩ := by
  induction cands generalizing s with
  | nil =>
      refine ⟨rfl, rfl, rfl, rfl, rfl, rfl, rfl, fun j _ => rfl, ?_⟩
      simp [collisionLoop]
  | cons i rest ih =>
      by_cases hcol : collides (s.positions.getD cubeIndex default)
          (s.positions.getD i default)
      · have hloop : collisionLoop cubeIndex s (i :: rest) =
            collisionLoop cubeIndex (negateDirAt s cubeIndex) rest := by
          simp only [collisionLoop]
          rw [if_pos hcol, if_neg (by rw [h]; simp)]
        have hpos1 : (negateDirAt s cubeIndex).positions = s.positions := rfl
        obtain ⟨g1, g2, g3, g4, g5, g6, g7, g8, g9⟩ :=
          ih (negateDirAt s cubeIndex) (by rw [hpos1]; exact h)
        rw [hpos1] at g9
        refine ⟨by rw [hloop]; exact g1, by rw [hloop, g2, hpos1],
          by rw [hloop]; exact g3, by rw [hloop]; exact g4, by rw [hloop]; exact g5,
          by rw [hloop]; exact g6,
          by rw [hloop, g7]; simp [negateDirAt], ?_, ?_⟩
        · intro j hj
          rw [hloop, g8 j hj]
          simp only [negateDirAt]
          exact getD_set_ne _ _ _ _ _ (fun hh => hj hh.symm)
        · have hk : ((i :: rest).countP fun j =>
              decide (collides (s.positions.getD cubeIndex default)
                (s.positions.getD j default))) =
              (rest.countP fun j =>
                decide (collides (s.positions.getD cubeIndex default)
                  (s.positions.getD j default))) + 1 := by
            rw [List.countP_cons]
            simp only [decide_eq_true_eq]
            rw [if_pos hcol]
          rw [hloop, g9, negateDirAt_getD, hk]
          dsimp only
          simp only [Dir.mk.injEq]
          refine ⟨by ring, by ring, by ring⟩
      · have hloop : collisionLoop cubeIndex s (i :: rest) =
            collisionLoop cubeIndex s rest := by
          simp only [collisionLoop, if_neg hcol]
        obtain ⟨g1, g2, g3, g4, g5, g6, g7, g8, g9⟩ := ih s h
        have hk : ((i :: rest).countP fun j =>
            decide (collides (s.positions.getD cubeIndex default)
              (s.positions.getD j default))) =
            rest.countP fun j =>
              decide (collides (s.positions.getD cubeIndex default)
                (s.positions.getD j default)) := by
          rw [List.countP_cons]
          simp only [decide_eq_true_eq]
          rw [if_neg hcol, Nat.add_zero]
        refine ⟨by rw [hloop]; exact g1, by rw [hloop]; exact g2, by rw [hloop]; exact g3,
          by rw [hloop]; exact g4, by rw [hloop]; exact g5, by rw [hloop]; exact g6,
          by rw [hloop]; exact g7, fun j hj => by rw [hloop]; exact g8 j hj, ?_⟩
        rw [hloop, g9, hk]

theorem collisionLoop_cases (cubeIndex : ℕ) (cands : List ℕ) (s : SimState) :
    ((collisionLoop cubeIndex s cands).1.positions = s.positions ∧
     (collisionLoop cubeIndex s cands).1.angles = s.angles ∧
     (collisionLoop cubeIndex s cands).1.speeds = s.speeds ∧
     (collisionLoop cubeIndex s cands).1.colors = s.colors ∧
     (collisionLoop cubeIndex s cands).1.rng = s.rng ∧
     (collisionLoop cubeIndex s cands).1.directions.length = s.directions.length ∧
     (collisionLoop cubeIndex s cands).2 = false) ∨
    ((s.positions.getD cubeIndex default).hasSplit = false ∧
     (collisionLoop cubeIndex s cands).1 = setHasSplitAt (splitCube s cubeIndex) cubeIndex ∧
     (collisionLoop cubeIndex s cands).2 = true) := by
  induction cands generalizing s with
  | nil => exact Or.inl ⟨rfl, rfl, rfl, rfl, rfl, rfl, rfl⟩
  | cons i rest ih =>
      by_cases hcol : collides (s.positions.getD cubeIndex default)
          (s.positions.getD i default)
      · by_cases hsp : (s.positions.getD cubeIndex default).hasSplit = false
        · have hloop : collisionLoop cubeIndex s (i :: rest) =
              (setHasSplitAt (splitCube s cubeIndex) cubeIndex, true) := by
            simp only [collisionLoop]
            rw [if_pos hcol, if_pos hsp]
          exact Or.inr ⟨hsp, by rw [hloop], by rw [hloop]⟩
        · have hloop : collisionLoop cubeIndex s (i :: rest) =
              collisionLoop cubeIndex (negateDirAt s cubeIndex) rest := by
            simp only [collisionLoop]
            rw [if_pos hcol, if_neg hsp]
          have hpos1 : (negateDirAt s cubeIndex).positions = s.positions := rfl
          rcases ih (negateDirAt s cubeIndex) with
            ⟨g1, g2, g3, g4, g5, g6, g7⟩ | ⟨g1, g2, g3⟩
          · refine Or.inl ⟨by rw [hloop, g1, hpos1], by rw [hloop]; exact g2,
              by rw [hloop]; exact g3, by rw [hloop]; exact g4, by rw [hloop]; exact g5,
              by rw [hloop, g6]; simp [negateDirAt], by rw [hloop]; exact g7⟩
          · exact absurd (hpos1 ▸ g1) hsp
      · have hloop : collisionLoop cubeIndex s (i :: rest) =
            collisionLoop cubeIndex s rest := by
          simp only [collisionLoop, if_neg hcol]
        rcases ih s with ⟨g1, g2, g3, g4, g5, g6, g7⟩ | ⟨g1, g2, g3⟩
        · exact Or.inl ⟨by rw [hloop]; exact g1, by rw [hloop]; exact g2,
            by rw [hloop]; exact g3, by rw [hloop]; exact g4, by rw [hloop]; exact g5,
            by rw [hloop]; exact g6, by rw [hloop]; exact g7⟩
        · exact Or.inr ⟨g1, by rw [hloop]; exact g2, by rw [hloop]; exact g3⟩

/-- C8: on an entity that has already split, one `checkCollisions` call
scans every broad-phase candidate, negates all three velocity components
once per overlapping candidate — so afterwards each component equals
`(-1)^k` times its previous value, `k` being the number of overlapping
candidates — touches no other entity's velocity and no positions, and
returns `false` (no split). -/
theorem checkCollisions_bounce_parity (grid : SpatialGrid) (cells : ℤ → List ℕ)
    (s : SimState) (cubeIndex : ℕ) (hlen : cubeIndex < s.positions.length)
    (h : (s.positions.getD cubeIndex default).hasSplit = true) :
    (checkCollisions grid cells s cubeIndex).2 = false ∧
    (checkCollisions grid cells s cubeIndex).1.positions = s.positions ∧
    (checkCollisions grid cells s cubeIndex).1.directions.getD cubeIndex default =
      ⟨(-1) ^ ((grid.getPotentialCollisions cells s.positions cubeIndex).countP fun i =>
           decide (collides (s.positions.getD cubeIndex default)
             (s.positions.getD i default))) *
         (s.directions.getD cubeIndex default).dx,
       (-1) ^ ((grid.getPotentialCollisions cells s.positions cubeIndex).countP fun i =>
           decide (collides (s.positions.getD cubeIndex default)
             (s.positions.getD i default))) *
         (s.directions.getD cubeIndex default).dy,
       (-1) ^ ((grid.getPotentialCollisions cells s.positions cubeIndex).countP fun i =>
           decide (collides (s.positions.getD cubeIndex default)
             (s.positions.getD i default))) *
         (s.directions.getD cubeIndex default).dz⟩ ∧
    ∀ j, j ≠ cubeIndex →
      (checkCollisions grid cells s cubeIndex).1.directions.getD j default =
        s.directions.getD j default := by
  have hcc : checkCollisions grid cells s cubeIndex =
      collisionLoop cubeIndex s (grid.getPotentialCollisions cells s.positions cubeIndex) := by
    simp only [checkCollisions, if_pos hlen]
  obtain ⟨g1, g2, _, _, _, _, _, g8, g9⟩ := collisionLoop_hasSplit cubeIndex
    (grid.getPotentialCollisions cells s.positions cubeIndex) s h
  rw [hcc]
  exact ⟨g1, g2, g9, g8⟩

/-- C8 (witness): instantiation at the concrete two-entity state. -/
theorem checkCollisions_bounce_parity_witness :
    0 < bounceExample.positions.length ∧
    (bounceExample.positions.getD 0 default).hasSplit = true ∧
    (checkCollisions spatialGrid (spatialGrid.updateGrid bounceExample.positions)
      bounceExample 0).2 = false :=
  ⟨by simp [bounceExample], rfl,
   (checkCollisions_bounce_parity spatialGrid
     (spatialGrid.updateGrid bounceExample.positions) bounceExample 0
     (by simp [bounceExample]) rfl).1⟩

theorem countP_set_exchange {α : Type} (p : α → Bool) (l : List α) (i : ℕ) (a : α)
    (h : i < l.length) :
    (l.set i a).countP p + (if p (l.get ⟨i, h⟩) = true then 1 else 0) =
      l.countP p + (if p a = true then 1 else 0) := by
  rw [List.set_eq_take_append_cons_drop, if_pos h]
  conv_rhs => rw [← List.take_append_drop i l]
  rw [List.drop_eq_getElem_cons h]
  rw [List.countP_append, List.countP_append, List.countP_cons, List.countP_cons]
  have : l.get ⟨i, h⟩ = l[i] := rfl
  rw [this]
  omega

theorem countP_hasSplit_set (l : List Pos) (i : ℕ) (q : Pos)
    (h : q.hasSplit = (l.getD i default).hasSplit) :
    (l.set i q).countP (fun p => !p.hasSplit) = l.countP (fun p => !p.hasSplit) := by
  by_cases hi : i < l.length
  · have he := countP_set_exchange (fun p => !p.hasSplit) l i q hi
    rw [List.getD_eq_getElem _ _ hi] at h
    have : l.get ⟨i, hi⟩ = l[i] := rfl
    rw [this, ← h] at he
    omega
  · rw [List.set_eq_of_length_le (by omega)]

theorem countP_hasSplit_set_true (l : List Pos) (i : ℕ) (q : Pos)
    (hi : i < l.length) (hfalse : (l.getD i default).hasSplit = false)
    (hq : q.hasSplit = true) :
    (l.set i q).countP (fun p => !p.hasSplit) + 1 = l.countP (fun p => !p.hasSplit) := by
  have he := countP_set_exchange (fun p => !p.hasSplit) l i q hi
  rw [List.getD_eq_getElem _ _ hi] at hfalse
  have hg : l.get ⟨i, hi⟩ = l[i] := rfl
  rw [hg] at he
  rw [hfalse, hq] at he
  simp only [Bool.not_false, Bool.not_true] at he
  norm_num at he
  omega

theorem checkCollisions_cases (grid : SpatialGrid) (cells : ℤ → List ℕ)
    (s : SimState) (i : ℕ) :
    ((checkCollisions grid cells s i).1.positions = s.positions ∧
     (checkCollisions grid cells s i).1.angles = s.angles ∧
     (checkCollisions grid cells s i).1.speeds = s.speeds ∧
     (checkCollisions grid cells s i).1.colors = s.colors ∧
     (checkCollisions grid cells s i).1.rng = s.rng ∧
     (checkCollisions grid cells s i).1.directions.length = s.directions.length ∧
     (checkCollisions grid cells s i).2 = false) ∨
    (i < s.positions.length ∧ (s.positions.getD i default).hasSplit = false ∧
     (checkCollisions grid cells s i).1 = setHasSplitAt (splitCube s i) i) := by
  by_cases hi : i < s.positions.length
  · have hcc : checkCollisions grid cells s i =
        collisionLoop i s (grid.getPotentialCollisions cells s.positions i) := by
      simp only [checkCollisions, if_pos hi]
    rcases collisionLoop_cases i (grid.getPotentialCollisions cells s.positions i) s with
      ⟨g1, g2, g3, g4, g5, g6, g7⟩ | ⟨g1, g2, _⟩
    · exact Or.inl ⟨by rw [hcc]; exact g1, by rw [hcc]; exact g2, by rw [hcc]; exact g3,
        by rw [hcc]; exact g4, by rw [hcc]; exact g5, by rw [hcc]; exact g6,
        by rw [hcc]; exact g7⟩
    · exact Or.inr ⟨hi, g1, by rw [hcc]; exact g2⟩
  · have hcc : checkCollisions grid cells s i = (s, false) := by
      simp only [checkCollisions, if_neg hi]
    exact Or.inl (by rw [hcc]; exact ⟨rfl, rfl, rfl, rfl, rfl, rfl, rfl⟩)

theorem splitCube_shape (s : SimState) (index : ℕ) :
    ∃ l : List Pos, (splitCube s index).positions = s.positions ++ l ∧ l.length = 8 ∧
      (∀ p ∈ l, p.hasSplit = true) ∧
      (splitCube s index).angles.length = s.angles.length + 8 ∧
      (splitCube s index).speeds.length = s.speeds.length + 8 ∧
      (splitCube s index).colors.length = s.colors.length + 8 ∧
      (splitCube s index).directions.length = s.directions.length + 8 := by
  obtain ⟨l, h1, h2, h3, h4, h5, h6, h7⟩ := splitFold_shape index (List.range 8) s
  exact ⟨l, h1, by simpa using h2, h3, by simpa using h4, by simpa using h5,
    by simpa using h6, by simpa using h7⟩

theorem unsplitCount_splitCube (s : SimState) (index : ℕ) :
    unsplitCount (splitCube s index) = s.positions.countP (fun p => !p.hasSplit) := by
  obtain ⟨l, h1, _, h3, _, _, _, _⟩ := splitCube_shape s index
  unfold unsplitCount
  rw [h1, List.countP_append]
  have hz : l.countP (fun p => !p.hasSplit) = 0 := by
    rw [List.countP_eq_zero]
    intro p hp
    simp [h3 p hp]
  rw [hz, Nat.add_zero]

theorem hasSplit_getD_append (l l' : List Pos) (j : ℕ)
    (h : (l.getD j default).hasSplit = true) :
    ((l ++ l').getD j default).hasSplit = true := by
  by_cases hj : j < l.length
  · rw [List.getD_append _ _ _ _ hj]; exact h
  · rw [List.getD_eq_default _ _ (by omega)] at h
    have hd : (default : Pos).hasSplit = false := rfl
    rw [hd] at h
    exact Bool.noConfusion h

theorem hasSplit_getD_set (l : List Pos) (i j : ℕ) (q : Pos)
    (hq : q.hasSplit = (l.getD i default).hasSplit ∨ q.hasSplit = true)
    (h : (l.getD j default).hasSplit = true) :
    ((l.set i q).getD j default).hasSplit = true := by
  by_cases hij : i = j
  · subst hij
    by_cases hi : i < l.length
    · rw [getD_set_self _ _ _ _ hi]
      rcases hq with hq | hq
      · rw [hq]; exact h
      · exact hq
    · rw [List.set_eq_of_length_le (by omega)]; exact h
  · rw [getD_set_ne _ _ _ _ _ hij]; exact h

theorem integrateAndBounce_hasSplit (p : Pos) (d : Dir) :
    (integrateAndBounce p d).1.hasSplit = p.hasSplit := rfl

theorem processEntity_positions (grid : SpatialGrid) (cells : ℤ → List ℕ)
    (s : SimState) (i : ℕ) :
    (processEntity grid cells s i).positions =
      ((checkCollisions grid cells (colorStepAt s i) i).1.positions).set i
        (integrateAndBounce
          ((checkCollisions grid cells (colorStepAt s i) i).1.positions.getD i default)
          ((checkCollisions grid cells (colorStepAt s i) i).1.directions.getD i default)).1 :=
  rfl

theorem colorStepAt_positions (s : SimState) (i : ℕ) :
    (colorStepAt s i).positions = s.positions := rfl

theorem processEntity_cases (grid : SpatialGrid) (cells : ℤ → List ℕ)
    (s : SimState) (i : ℕ) :
    ((processEntity grid cells s i).positions.length = s.positions.length ∧
     unsplitCount (processEntity grid cells s i) = unsplitCount s) ∨
    ((processEntity grid cells s i).positions.length = s.positions.length + 8 ∧
     unsplitCount (processEntity grid cells s i) + 1 = unsplitCount s) := by
  have hq : ∀ (l : List Pos) (d : Dir),
      ((integrateAndBounce (l.getD i default) d).1).hasSplit =
        (l.getD i default).hasSplit := fun l d => rfl
  rcases checkCollisions_cases grid cells (colorStepAt s i) i with
    ⟨g1, _, _, _, _, _, _⟩ | ⟨hi, hfalse, g⟩
  · left
    rw [colorStepAt_positions] at g1
    constructor
    · rw [processEntity_positions, g1, List.length_set]
    · show (processEntity grid cells s i).positions.countP (fun p => !p.hasSplit) =
        s.positions.countP (fun p => !p.hasSplit)
      rw [processEntity_positions, g1]
      exact countP_hasSplit_set _ _ _ (hq _ _)
  · right
    rw [colorStepAt_positions] at hi hfalse
    obtain ⟨l, k1, k2, k3, _, _, _, _⟩ := splitCube_shape (colorStepAt s i) i
    rw [colorStepAt_positions] at k1
    have hsetpos : (setHasSplitAt (splitCube (colorStepAt s i) i) i).positions =
        (splitCube (colorStepAt s i) i).positions.set i
          { (splitCube (colorStepAt s i) i).positions.getD i default with
            hasSplit := true } := rfl
    have hln : (splitCube (colorStepAt s i) i).positions.length =
        s.positions.length + 8 := by
      rw [k1, List.length_append, k2]
    constructor
    · rw [processEntity_positions, g, List.length_set, hsetpos, List.length_set, hln]
    · show (processEntity grid cells s i).positions.countP (fun p => !p.hasSplit) + 1 =
        s.positions.countP (fun p => !p.hasSplit)
      rw [processEntity_positions, g]
      rw [countP_hasSplit_set _ _ _ ?_]
      · rw [hsetpos]
        have hcount := countP_hasSplit_set_true (splitCube (colorStepAt s i) i).positions i
          { (splitCube (colorStepAt s i) i).positions.getD i default with hasSplit := true }
          (by omega) ?_ rfl
        · rw [hcount]
          have := unsplitCount_splitCube (colorStepAt s i) i
          unfold unsplitCount at this
          rw [this]
          rfl
        · rw [k1, List.getD_append _ _ _ _ hi]
          exact hfalse
      · exact hq _ _

theorem setHasSplitAt_positions (s : SimState) (i : ℕ) :
    (setHasSplitAt s i).positions =
      s.positions.set i { s.positions.getD i default with hasSplit := true } := rfl

theorem setHasSplitAt_angles (s : SimState) (i : ℕ) :
    (setHasSplitAt s i).angles = s.angles := rfl

theorem setHasSplitAt_speeds (s : SimState) (i : ℕ) :
    (setHasSplitAt s i).speeds = s.speeds := rfl

theorem setHasSplitAt_colors (s : SimState) (i : ℕ) :
    (setHasSplitAt s i).colors = s.colors := rfl

theorem setHasSplitAt_directions (s : SimState) (i : ℕ) :
    (setHasSplitAt s i).directions = s.directions := rfl

theorem colorStepAt_angles (s : SimState) (i : ℕ) :
    (colorStepAt s i).angles = s.angles := rfl

theorem colorStepAt_speeds (s : SimState) (i : ℕ) :
    (colorStepAt s i).speeds = s.speeds := rfl

theorem colorStepAt_directions (s : SimState) (i : ℕ) :
    (colorStepAt s i).directions = s.directions := rfl

theorem colorStepAt_colors (s : SimState) (i : ℕ) :
    (colorStepAt s i).colors =
      s.colors.set i (updateColorTransition (s.colors.getD i default) s.rng).1 := rfl

theorem processEntity_angles (grid : SpatialGrid) (cells : ℤ → List ℕ)
    (s : SimState) (i : ℕ) :
    (processEntity grid cells s i).angles =
      ((checkCollisions grid cells (colorStepAt s i) i).1.angles).set i
        ((checkCollisions grid cells (colorStepAt s i) i).1.angles.getD i 0 +
         (checkCollisions grid cells (colorStepAt s i) i).1.speeds.getD i 0) := rfl

theorem processEntity_speeds (grid : SpatialGrid) (cells : ℤ → List ℕ)
    (s : SimState) (i : ℕ) :
    (processEntity grid cells s i).speeds =
      (checkCollisions grid cells (colorStepAt s i) i).1.speeds := rfl

theorem processEntity_colors (grid : SpatialGrid) (cells : ℤ → List ℕ)
    (s : SimState) (i : ℕ) :
    (processEntity grid cells s i).colors =
      (checkCollisions grid cells (colorStepAt s i) i).1.colors := rfl

theorem processEntity_directions (grid : SpatialGrid) (cells : ℤ → List ℕ)
    (s : SimState) (i : ℕ) :
    (processEntity grid cells s i).directions =
      ((checkCollisions grid cells (colorStepAt s i) i).1.directions).set i
        (integrateAndBounce
          ((checkCollisions grid cells (colorStepAt s i) i).1.positions.getD i default)
          ((checkCollisions grid cells (colorStepAt s i) i).1.directions.getD i default)).2 :=
  rfl

theorem processEntity_hasSplit_mono (grid : SpatialGrid) (cells : ℤ → List ℕ)
    (s : SimState) (i j : ℕ)
    (h : (s.positions.getD j default).hasSplit = true) :
    ((processEntity grid cells s i).positions.getD j default).hasSplit = true := by
  rw [processEntity_positions]
  refine hasSplit_getD_set _ _ _ _ (Or.inl rfl) ?_
  rcases checkCollisions_cases grid cells (colorStepAt s i) i with
    ⟨g1, _, _, _, _, _, _⟩ | ⟨hi, hfalse, g⟩
  · rw [g1, colorStepAt_positions]; exact h
  · rw [g, setHasSplitAt_positions]
    refine hasSplit_getD_set _ _ _ _ (Or.inr rfl) ?_
    obtain ⟨l, k1, _, _, _, _, _, _⟩ := splitCube_shape (colorStepAt s i) i
    rw [k1, colorStepAt_positions]
    exact hasSplit_getD_append _ _ _ h

theorem processEntity_aligned (grid : SpatialGrid) (cells : ℤ → List ℕ)
    (s : SimState) (i : ℕ) (h : aligned s) :
    aligned (processEntity grid cells s i) := by
  obtain ⟨h1, h2, h3, h4⟩ := h
  rcases checkCollisions_cases grid cells (colorStepAt s i) i with
    ⟨g1, g2, g3, g4, _, g6, _⟩ | ⟨hi, hfalse, g⟩
  · have e1 : (processEntity grid cells s i).positions.length = s.positions.length := by
      rw [processEntity_positions, List.length_set, g1, colorStepAt_positions]
    have e2 : (processEntity grid cells s i).angles.length = s.angles.length := by
      rw [processEntity_angles, List.length_set, g2, colorStepAt_angles]
    have e3 : (processEntity grid cells s i).speeds.length = s.speeds.length := by
      rw [processEntity_speeds, g3, colorStepAt_speeds]
    have e4 : (processEntity grid cells s i).colors.length = s.colors.length := by
      rw [processEntity_colors, g4, colorStepAt_colors, List.length_set]
    have e5 : (processEntity grid cells s i).directions.length = s.directions.length := by
      rw [processEntity_directions, List.length_set, g6, colorStepAt_directions]
    exact ⟨by rw [e2, e1, h1], by rw [e3, e1, h2], by rw [e4, e1, h3], by rw [e5, e1, h4]⟩
  · obtain ⟨l, k1, k2, _, k4, k5, k6, k7⟩ := splitCube_shape (colorStepAt s i) i
    have e1 : (processEntity grid cells s i).positions.length = s.positions.length + 8 := by
      rw [processEntity_positions, List.length_set, g, setHasSplitAt_positions,
        List.length_set, k1, List.length_append, k2, colorStepAt_positions]
    have e2 : (processEntity grid cells s i).angles.length = s.angles.length + 8 := by
      rw [processEntity_angles, List.length_set, g, setHasSplitAt_angles, k4,
        colorStepAt_angles]
    have e3 : (processEntity grid cells s i).speeds.length = s.speeds.length + 8 := by
      rw [processEntity_speeds, g, setHasSplitAt_speeds, k5, colorStepAt_speeds]
    have e4 : (processEntity grid cells s i).colors.length = s.colors.length + 8 := by
      rw [processEntity_colors, g, setHasSplitAt_colors, k6, colorStepAt_colors,
        List.length_set]
    have e5 : (processEntity grid cells s i).directions.length =
        s.directions.length + 8 := by
      rw [processEntity_directions, List.length_set, g, setHasSplitAt_directions, k7,
        colorStepAt_directions]
    exact ⟨by rw [e2, e1, h1], by rw [e3, e1, h2], by rw [e4, e1, h3], by rw [e5, e1, h4]⟩

theorem processEntity_len_mono (grid : SpatialGrid) (cells : ℤ → List ℕ)
    (s : SimState) (i : ℕ) :
    s.positions.length ≤ (processEntity grid cells s i).positions.length := by
  rcases processEntity_cases grid cells s i with ⟨a1, _⟩ | ⟨a1, _⟩ <;> omega

theorem tickLoopF_spec (grid : SpatialGrid) (cells : ℤ → List ℕ) :
    ∀ (fuel : ℕ) (s : SimState) (i : ℕ), tickMeasure s i ≤ fuel →
      s.positions.length ≤ (tickLoopF grid cells fuel s i).1.positions.length ∧
      (tickLoopF grid cells fuel s i).2 =
        List.range' i ((tickLoopF grid cells fuel s i).1.positions.length - i) ∧
      (∀ j, (s.positions.getD j default).hasSplit = true →
        ((tickLoopF grid cells fuel s i).1.positions.getD j default).hasSplit = true) ∧
      (aligned s → aligned (tickLoopF grid cells fuel s i).1) := by
  intro fuel
  induction fuel with
  | zero =>
      intro s i hm
      have hle : s.positions.length ≤ i := by
        unfold tickMeasure at hm
        omega
      simp only [tickLoopF]
      exact ⟨le_refl _, by rw [Nat.sub_eq_zero_of_le hle]; rfl, fun j h => h, fun h => h⟩
  | succ fuel ih =>
      intro s i hm
      by_cases hi : i < s.positions.length
      · have hdec : tickMeasure (processEntity grid cells s i) (i + 1) ≤ fuel := by
          rcases processEntity_cases grid cells s i with ⟨a1, a2⟩ | ⟨a1, a2⟩ <;>
            · unfold tickMeasure at *
              omega
        obtain ⟨b1, b2, b3, b4⟩ := ih (processEntity grid cells s i) (i + 1) hdec
        have hloop : tickLoopF grid cells (fuel + 1) s i =
            ((tickLoopF grid cells fuel (processEntity grid cells s i) (i + 1)).1,
             i :: (tickLoopF grid cells fuel (processEntity grid cells s i) (i + 1)).2) := by
          simp only [tickLoopF, if_pos hi]
        refine ⟨?_, ?_, ?_, ?_⟩
        · rw [hloop]
          exact le_trans (processEntity_len_mono grid cells s i) b1
        · rw [hloop]
          dsimp only
          rw [b2]
          have hlt : i <
              (tickLoopF grid cells fuel (processEntity grid cells s i) (i + 1)).1.positions.length := by
            have := processEntity_len_mono grid cells s i
            omega
          rw [show (tickLoopF grid cells fuel (processEntity grid cells s i)
              (i + 1)).1.positions.length - i =
              ((tickLoopF grid cells fuel (processEntity grid cells s i)
                (i + 1)).1.positions.length - (i + 1)) + 1 from by omega]
          rw [List.range'_succ]
        · intro j hj
          rw [hloop]
          exact b3 j (processEntity_hasSplit_mono grid cells s i j hj)
        · intro ha
          rw [hloop]
          exact b4 (processEntity_aligned grid cells s i ha)
      · have hloop : tickLoopF grid cells (fuel + 1) s i = (s, []) := by
          simp only [tickLoopF, if_neg hi]
        rw [hloop]
        refine ⟨le_refl _, ?_, fun j h => h, fun h => h⟩
        dsimp only
        rw [Nat.sub_eq_zero_of_le (by omega)]
        rfl

/-- C9: the per-entity loop bound of a tick is re-read from the current
state on every iteration, so the recorded list of visited indices is
exactly `0, 1, …, finalLength - 1` for the population length at the
tick's end: every child appended by a split earlier in the same tick
(its index lies below the final length) is itself visited exactly once —
its color advanced, its collisions resolved, and its rotation and
position integrated — before the tick ends. -/
theorem tick_visits_children (s : SimState) :
    (tick s).2 = List.range (tick s).1.positions.length ∧
    s.positions.length ≤ (tick s).1.positions.length := by
  obtain ⟨b1, b2, _, _⟩ := tickLoopF_spec spatialGrid (spatialGrid.updateGrid s.positions)
    (tickMeasure s 0) s 0 (le_refl _)
  have ht : tick s = tickLoopF spatialGrid (spatialGrid.updateGrid s.positions)
      (tickMeasure s 0) s 0 := rfl
  constructor
  · rw [ht, b2, Nat.sub_zero, List.range_eq_range']
  · rw [ht]
    exact b1

/-- C4: the `hasSplit` flag is monotonic — a tick never resets it — and an
entity whose flag is set never splits again: `checkCollisions` on it
returns `false` and appends nothing, whatever candidates the grid
produces. -/
theorem hasSplit_monotone (s : SimState) (j : ℕ)
    (h : (s.positions.getD j default).hasSplit = true) :
    ((tick s).1.positions.getD j default).hasSplit = true ∧
    ∀ (grid : SpatialGrid) (cells : ℤ → List ℕ),
      (checkCollisions grid cells s j).2 = false ∧
      (checkCollisions grid cells s j).1.positions = s.positions := by
  constructor
  · obtain ⟨_, _, b3, _⟩ := tickLoopF_spec spatialGrid (spatialGrid.updateGrid s.positions)
      (tickMeasure s 0) s 0 (le_refl _)
    exact b3 j h
  · intro grid cells
    rcases checkCollisions_cases grid cells s j with
      ⟨g1, _, _, _, _, _, g7⟩ | ⟨_, hfalse, _⟩
    · exact ⟨g7, g1⟩
    · rw [h] at hfalse
      exact Bool.noConfusion hfalse

/-- C4 (witness): instantiation at the concrete already-split entity 0. -/
theorem hasSplit_monotone_witness :
    (bounceExample.positions.getD 0 default).hasSplit = true ∧
    ((tick bounceExample).1.positions.getD 0 default).hasSplit = true :=
  ⟨rfl, (hasSplit_monotone bounceExample 0 rfl).1⟩

/-- C10: `splitCube` appends exactly 8 elements to each of the five
parallel per-entity collections, so equal lengths of the five collections
are preserved by every split and by every full tick. -/
theorem parallel_arrays_stay_aligned (s : SimState) (index : ℕ) :
    ((splitCube s index).positions.length = s.positions.length + 8 ∧
     (splitCube s index).angles.length = s.angles.length + 8 ∧
     (splitCube s index).speeds.length = s.speeds.length + 8 ∧
     (splitCube s index).colors.length = s.colors.length + 8 ∧
     (splitCube s index).directions.length = s.directions.length + 8) ∧
    (aligned s → aligned (splitCube s index)) ∧
    (aligned s → aligned (tick s).1) := by
  obtain ⟨l, k1, k2, _, k4, k5, k6, k7⟩ := splitCube_shape s index
  have hp : (splitCube s index).positions.length = s.positions.length + 8 := by
    rw [k1, List.length_append, k2]
  refine ⟨⟨hp, k4, k5, k6, k7⟩, ?_, ?_⟩
  · rintro ⟨h1, h2, h3, h4⟩
    exact ⟨by rw [k4, hp, h1], by rw [k5, hp, h2], by rw [k6, hp, h3], by rw [k7, hp, h4]⟩
  · intro ha
    obtain ⟨_, _, _, b4⟩ := tickLoopF_spec spatialGrid (spatialGrid.updateGrid s.positions)
      (tickMeasure s 0) s 0 (le_refl _)
    exact b4 ha

/-- C10 (witness): instantiation at the concrete one-entity state. -/
theorem parallel_arrays_stay_aligned_witness :
    aligned splitExample ∧ aligned (tick splitExample).1 :=
  ⟨by simp [aligned, splitExample],
   (parallel_arrays_stay_aligned splitExample 0).2.2 (by simp [aligned, splitExample])⟩

theorem foldl_mem_mono {α : Type} {β : Type} (step : List β → α → List β) (x : β)
    (hmono : ∀ acc a, x ∈ acc → x ∈ step acc a) :
    ∀ (l : List α) (init : List β), x ∈ init → x ∈ l.foldl step init := by
  intro l
  induction l with
  | nil => intro init h; exact h
  | cons a L ih => intro init h; exact ih _ (hmono init a h)

theorem foldl_mem_step {α : Type} {β : Type} (step : List β → α → List β) (x : β)
    (hmono : ∀ acc a, x ∈ acc → x ∈ step acc a) :
    ∀ (l : List α) (init : List β) (o : α), o ∈ l → (∀ acc, x ∈ step acc o) →
      x ∈ l.foldl step init := by
  intro l
  induction l with
  | nil => intro init o ho _; cases ho
  | cons a L ih =>
      intro init o ho hstep
      rcases List.mem_cons.mp ho with h | h
      · subst h
        exact foldl_mem_mono step x hmono L _ (hstep init)
      · exact ih _ o h hstep

theorem addCandidate_mem_mono (ci : ℕ) (acc : List ℕ) (a x : ℕ) (hx : x ∈ acc) :
    x ∈ addCandidate ci acc a := by
  unfold addCandidate
  split_ifs
  · exact List.mem_append_left _ hx
  · exact hx

theorem foldl_addCandidate_mono (ci : ℕ) (l : List ℕ) (acc : List ℕ) (x : ℕ)
    (hx : x ∈ acc) : x ∈ l.foldl (addCandidate ci) acc :=
  foldl_mem_mono _ x (fun acc a h => addCandidate_mem_mono ci acc a x h) l acc hx

theorem foldl_addCandidate_mem (ci : ℕ) (x : ℕ) (hne : x ≠ ci) :
    ∀ (l : List ℕ) (acc : List ℕ), x ∈ l → x ∈ l.foldl (addCandidate ci) acc := by
  intro l
  induction l with
  | nil => intro acc h; cases h
  | cons a L ih =>
      intro acc h
      rw [List.foldl_cons]
      rcases List.mem_cons.mp h with h | h
      · subst h
        refine foldl_addCandidate_mono ci L _ x ?_
        unfold addCandidate
        split_ifs with hcond
        · exact List.mem_append_right _ (List.mem_singleton.mpr rfl)
        · push_neg at hcond
          exact hcond hne
      · exact ih _ h

theorem gridInsert_mem_mono (numCells : ℕ) (cells : ℤ → List ℕ) (gi : ℤ) (i : ℕ)
    (c : ℤ) (x : ℕ) (hx : x ∈ cells c) : x ∈ gridInsert numCells cells gi i c := by
  unfold gridInsert
  by_cases h : 0 ≤ gi ∧ gi < (numCells : ℤ)
  · rw [if_pos h]
    by_cases hc : c = gi
    · rw [if_pos hc]
      subst hc
      exact List.mem_append_left _ hx
    · rw [if_neg hc]
      exact hx
  · rw [if_neg h]
    exact hx

theorem gridInsert_mem_self (numCells : ℕ) (cells : ℤ → List ℕ) (gi : ℤ) (i : ℕ)
    (h : 0 ≤ gi ∧ gi < (numCells : ℤ)) : i ∈ gridInsert numCells cells gi i gi := by
  unfold gridInsert
  rw [if_pos h]
  rw [if_pos rfl]
  exact List.mem_append_right _ (List.mem_singleton.mpr rfl)

theorem foldl_gridInsert_mem (grid : SpatialGrid) (ps : List Pos) (j : ℕ)
    (hr : 0 ≤ cellIndexOf grid ps j ∧ cellIndexOf grid ps j < (grid.numCells : ℤ)) :
    ∀ (L : List ℕ) (cells0 : ℤ → List ℕ),
      j ∈ L ∨ j ∈ cells0 (cellIndexOf grid ps j) →
      j ∈ (L.foldl (fun cells i => gridInsert grid.numCells cells (cellIndexOf grid ps i) i)
        cells0) (cellIndexOf grid ps j) := by
  intro L
  induction L with
  | nil =>
      intro cells0 h
      rcases h with h | h
      · cases h
      · exact h
  | cons a L ih =>
      intro cells0 h
      rw [List.foldl_cons]
      rcases h with h | h
      · rcases List.mem_cons.mp h with h | h
        · subst h
          exact ih _ (Or.inr (gridInsert_mem_self _ _ _ _ hr))
        · exact ih _ (Or.inl h)
      · exact ih _ (Or.inr (gridInsert_mem_mono _ _ _ _ _ _ h))

theorem mem_updateGrid (grid : SpatialGrid) (ps : List Pos) (j : ℕ) (hj : j < ps.length)
    (hr : 0 ≤ cellIndexOf grid ps j ∧ cellIndexOf grid ps j < (grid.numCells : ℤ)) :
    j ∈ grid.updateGrid ps (cellIndexOf grid ps j) := by
  have hu : grid.updateGrid ps = (List.range ps.length).foldl
      (fun cells i => gridInsert grid.numCells cells (cellIndexOf grid ps i) i)
      (fun _ => []) := rfl
  rw [hu]
  exact foldl_gridInsert_mem grid ps j hr (List.range ps.length) _
    (Or.inl (List.mem_range.mpr hj))

theorem floor_div_adjacent {cs a b : ℚ} (hcs : 0 < cs) (h : |a - b| < cs) :
    -1 ≤ ⌊a / cs⌋ - ⌊b / cs⌋ ∧ ⌊a / cs⌋ - ⌊b / cs⌋ ≤ 1 := by
  rw [abs_sub_lt_iff] at h
  obtain ⟨h1, h2⟩ := h
  have ha : a / cs < b / cs + 1 := by
    have hq : (a - b) / cs < 1 := (div_lt_one hcs).mpr h1
    rw [sub_div] at hq
    linarith
  have hb : b / cs < a / cs + 1 := by
    have hq : (b - a) / cs < 1 := (div_lt_one hcs).mpr h2
    rw [sub_div] at hq
    linarith
  constructor
  · have := Int.floor_le_floor (le_of_lt hb)
    rw [Int.floor_add_one] at this
    omega
  · have := Int.floor_le_floor (le_of_lt ha)
    rw [Int.floor_add_one] at this
    omega

theorem mem_offsetRange (d : ℤ) (h1 : -1 ≤ d) (h2 : d ≤ 1) : d ∈ offsetRange := by
  unfold offsetRange
  interval_cases d <;> simp

theorem mem_neighborOffsets (dx dy dz : ℤ) (h1 : dx ∈ offsetRange)
    (h2 : dy ∈ offsetRange) (h3 : dz ∈ offsetRange) :
    (dx, dy, dz) ∈ neighborOffsets := by
  unfold neighborOffsets
  rw [List.mem_flatMap]
  refine ⟨dx, h1, ?_⟩
  rw [List.mem_flatMap]
  exact ⟨dy, h2, List.mem_map.mpr ⟨dz, h3, rfl⟩⟩

theorem cellIndexOf_eq (grid : SpatialGrid) (ps : List Pos) (i : ℕ) :
    cellIndexOf grid ps i =
      ⌊((ps.getD i default).x + boundaryX) / grid.cellSize⌋ +
      ⌊((ps.getD i default).y + boundaryY) / grid.cellSize⌋ * grid.gridSize +
      ⌊((ps.getD i default).z + |boundaryZ|) / grid.cellSize⌋ * grid.gridSize *
        grid.gridSize := rfl

theorem spatialGrid_construct :
    SpatialGrid.construct (max boundaryX (max boundaryY |boundaryZ|)) (1/2) =
      some spatialGrid := by
  norm_num [SpatialGrid.construct, boundaryX, boundaryY, boundaryZ, spatialGrid]
  decide

/-- C7: after the grid is rebuilt, any two distinct entities whose
positions differ by less than `cellSize` on every axis — and whose flat
cell indices fall inside the allocated grid (the claim's "within range")
— see each other: at least one appears in the other's
`getPotentialCollisions` result (in fact the proof places `j` in `i`'s
candidates). -/
theorem grid_completeness (grid : SpatialGrid) (ps : List Pos) (i j : ℕ)
    (hcs : 0 < grid.cellSize) (hi : i < ps.length) (hj : j < ps.length) (hij : i ≠ j)
    (hx : |(ps.getD i default).x - (ps.getD j default).x| < grid.cellSize)
    (hy : |(ps.getD i default).y - (ps.getD j default).y| < grid.cellSize)
    (hz : |(ps.getD i default).z - (ps.getD j default).z| < grid.cellSize)
    (hri : 0 ≤ cellIndexOf grid ps i ∧ cellIndexOf grid ps i < (grid.numCells : ℤ))
    (hrj : 0 ≤ cellIndexOf grid ps j ∧ cellIndexOf grid ps j < (grid.numCells : ℤ)) :
    j ∈ grid.getPotentialCollisions (grid.updateGrid ps) ps i ∨
    i ∈ grid.getPotentialCollisions (grid.updateGrid ps) ps j := by
  left
  have hdx := @floor_div_adjacent grid.cellSize
    ((ps.getD j default).x + boundaryX) ((ps.getD i default).x + boundaryX)
    hcs (by rw [add_sub_add_right_eq_sub, abs_sub_comm]; exact hx)
  have hdy := @floor_div_adjacent grid.cellSize
    ((ps.getD j default).y + boundaryY) ((ps.getD i default).y + boundaryY)
    hcs (by rw [add_sub_add_right_eq_sub, abs_sub_comm]; exact hy)
  have hdz := @floor_div_adjacent grid.cellSize
    ((ps.getD j default).z + |boundaryZ|) ((ps.getD i default).z + |boundaryZ|)
    hcs (by rw [add_sub_add_right_eq_sub, abs_sub_comm]; exact hz)
  have ho : (⌊((ps.getD j default).x + boundaryX) / grid.cellSize⌋ -
        ⌊((ps.getD i default).x + boundaryX) / grid.cellSize⌋,
      ⌊((ps.getD j default).y + boundaryY) / grid.cellSize⌋ -
        ⌊((ps.getD i default).y + boundaryY) / grid.cellSize⌋,
      ⌊((ps.getD j default).z + |boundaryZ|) / grid.cellSize⌋ -
        ⌊((ps.getD i default).z + |boundaryZ|) / grid.cellSize⌋) ∈ neighborOffsets :=
    mem_neighborOffsets _ _ _ (mem_offsetRange _ hdx.1 hdx.2)
      (mem_offsetRange _ hdy.1 hdy.2) (mem_offsetRange _ hdz.1 hdz.2)
  have hgpc : grid.getPotentialCollisions (grid.updateGrid ps) ps i =
      neighborOffsets.foldl
        (fun cands d =>
          if 0 ≤ cellIndexOf grid ps i + d.1 + d.2.1 * grid.gridSize +
              d.2.2 * grid.gridSize * grid.gridSize ∧
              cellIndexOf grid ps i + d.1 + d.2.1 * grid.gridSize +
              d.2.2 * grid.gridSize * grid.gridSize < (grid.numCells : ℤ) then
            (grid.updateGrid ps (cellIndexOf grid ps i + d.1 + d.2.1 * grid.gridSize +
              d.2.2 * grid.gridSize * grid.gridSize)).foldl (addCandidate i) cands
          else cands) [] := rfl
  rw [hgpc]
  refine foldl_mem_step _ j ?_ neighborOffsets [] _ ho ?_
  · intro acc d hxx
    dsimp only
    split_ifs
    · exact foldl_addCandidate_mono _ _ _ _ hxx
    · exact hxx
  · intro acc
    dsimp only
    have hsum : cellIndexOf grid ps i +
        (⌊((ps.getD j default).x + boundaryX) / grid.cellSize⌋ -
          ⌊((ps.getD i default).x + boundaryX) / grid.cellSize⌋) +
        (⌊((ps.getD j default).y + boundaryY) / grid.cellSize⌋ -
          ⌊((ps.getD i default).y + boundaryY) / grid.cellSize⌋) * grid.gridSize +
        (⌊((ps.getD j default).z + |boundaryZ|) / grid.cellSize⌋ -
          ⌊((ps.getD i default).z + |boundaryZ|) / grid.cellSize⌋) * grid.gridSize *
          grid.gridSize = cellIndexOf grid ps j := by
      rw [cellIndexOf_eq, cellIndexOf_eq]
      ring
    rw [hsum, if_pos hrj]
    exact foldl_addCandidate_mem i j (Ne.symm hij) _ acc (mem_updateGrid grid ps j hj hrj)

/-- C7 (witness): the two overlapping entities of the concrete example
state land in the same in-range cell and find each other after a
rebuild. -/
theorem grid_completeness_witness :
    0 < spatialGrid.cellSize ∧
    (0 ≤ cellIndexOf spatialGrid bounceExample.positions 0 ∧
      cellIndexOf spatialGrid bounceExample.positions 0 < (spatialGrid.numCells : ℤ)) ∧
    (0 ≤ cellIndexOf spatialGrid bounceExample.positions 1 ∧
      cellIndexOf spatialGrid bounceExample.positions 1 < (spatialGrid.numCells : ℤ)) ∧
    (1 ∈ spatialGrid.getPotentialCollisions
        (spatialGrid.updateGrid bounceExample.positions) bounceExample.positions 0 ∨
     0 ∈ spatialGrid.getPotentialCollisions
        (spatialGrid.updateGrid bounceExample.positions) bounceExample.positions 1) :=
  ⟨by norm_num [spatialGrid],
   by norm_num [cellIndexOf_eq, spatialGrid, bounceExample, boundaryX, boundaryY, boundaryZ],
   by norm_num [cellIndexOf_eq, spatialGrid, bounceExample, boundaryX, boundaryY, boundaryZ],
   grid_completeness spatialGrid bounceExample.positions 0 1
     (by norm_num [spatialGrid]) (by simp [bounceExample]) (by simp [bounceExample])
     (by norm_num)
     (by norm_num [bounceExample, spatialGrid, abs_lt])
     (by norm_num [bounceExample, spatialGrid, abs_lt])
     (by norm_num [bounceExample, spatialGrid, abs_lt])
     (by norm_num [cellIndexOf_eq, spatialGrid, bounceExample, boundaryX, boundaryY,
       boundaryZ])
     (by norm_num [cellIndexOf_eq, spatialGrid, bounceExample, boundaryX, boundaryY,
       boundaryZ])⟩

end CubeSim
